import Mathlib

/-!
Verification of the epoch/batch dataset-provider layer in
`data_providers/cifar.py` (the `vision_networks` repository).

The embedding below translates the source functions into Lean:

* a numpy image (3D tensor of shape (H, W, C)) is a `Image` structure holding
  its three dimensions and a pixel-lookup function into the rationals (floats
  are modelled by exact rationals; `np.sqrt` inside `np.std` is modelled by the
  computable `Rat.sqrt`, whose exact value no theorem below depends on);
* a batch / corpus (numpy 4D array) is a `List Image`; a label array is a
  `List β` (class indices or one-hot rows);
* numpy calls that can raise (`np.random.randint` with an empty range, fancy
  indexing or scalar indexing out of bounds) return `Option`/`none` for the
  raising outcome;
* the numpy global RNG is passed explicitly: `np.random.randint(lo, hi)`
  becomes `randint lo hi r` for a draw seed `r`, and `np.random.permutation(n)`
  becomes an explicit `List Nat` argument (theorems that need it assume the
  argument is a permutation of `List.range n`, which is what numpy always
  produces);
* the unbounded recursion of `CifarDataSet.next_batch` is given a `fuel`
  argument; `none` at every fuel models non-termination (or a raised
  exception inside an epoch restart).
-/

namespace VisionNetworks

/-- One numpy image: shape (H, W, C) plus a pixel lookup function. -/
structure Image where
  H : Nat
  W : Nat
  C : Nat
  pixel : Nat → Nat → Nat → Rat

/-- Model of `np.random.randint(lo, hi)` given a raw draw seed `r`: a value in
`[lo, hi)` when the range is nonempty, and `none` (ValueError: low >= high)
when `lo >= hi`. -/
def randint (lo hi r : Nat) : Option Nat :=
  if lo < hi then some (lo + r % (hi - lo)) else none

/-- Embedding of `augment_image(image, pad)` (cifar.py lines 11-30), with the
three `np.random.randint` draws passed in as seeds `rx`, `ry`, `rf`.

Source behaviour being modelled:
* `zeros_padded` is the (H+2*pad, W+2*pad, C) zero-padded copy of `image`;
* `init_x = np.random.randint(0, pad * 2)` raises ValueError when `pad = 0`
  (empty range), modelled by `randint` returning `none`;
* line 23-26 computes `zeros_padded[init_x:init_x+H, init_y:init_y+W,
  init_shape[2]]`: the channel axis (of size `C`) is indexed with the scalar
  `init_shape[2] = C`.  numpy's bounds check for a non-negative scalar index
  `k` on an axis of size `C` is `k < C`; here it is `C < C`, which always
  fails, so the call raises IndexError for every image.  The dead `then`
  branch is closed with `Nat.lt_irrefl`; the flip at lines 27-29 (modelled
  separately as `maybe_flip`) and the `return` are unreachable. -/
def augment_image (image : Image) (pad : Nat) (rx ry rf : Nat) : Option Image :=
  let zeros_padded : Image :=
    { H := image.H + pad * 2, W := image.W + pad * 2, C := image.C,
      pixel := fun i j k =>
        if pad ≤ i ∧ i < image.H + pad ∧ pad ≤ j ∧ j < image.W + pad then
          image.pixel (i - pad) (j - pad) k
        else 0 }
  match randint 0 (pad * 2) rx with
  | none => none
  | some _init_x =>
    match randint 0 (pad * 2) ry with
    | none => none
    | some _init_y =>
      if h : image.C < zeros_padded.C then (Nat.lt_irrefl image.C h).elim
      else none

/-- Mirror an image horizontally: `cropped[:, ::-1, :]` (cifar.py line 29). -/
def hflip (img : Image) : Image :=
  { img with pixel := fun i j k => img.pixel i (img.W - 1 - j) k }

/-- Embedding of the flip step of `augment_image` (cifar.py lines 27-29) on
its own: `flip = np.random.randint(0, 1); if flip: cropped = cropped[:, ::-1,
:]`, for a cropped image and a draw seed `r`. -/
def maybe_flip (r : Nat) (cropped : Image) : Option Image :=
  match randint 0 1 r with
  | none => none
  | some flip => some (if flip ≠ 0 then hflip cropped else cropped)

/-- Recursion worker for `augment_all_images`: image index `i` selects the
per-image random draws from the stream `rng`.  Note the source (line 36) calls
`augment_image(initial_images[i], pad=4)`, hard-coding 4 and ignoring the
`pad` parameter of `augment_all_images`; the embedding reproduces that. -/
def augment_all_images_from (rng : Nat → Nat × Nat × Nat) (pad : Nat) :
    Nat → List Image → Option (List Image)
  | _, [] => some []
  | i, img :: rest =>
    match augment_image img 4 (rng i).1 (rng i).2.1 (rng i).2.2 with
    | none => none
    | some a =>
      match augment_all_images_from rng pad (i + 1) rest with
      | none => none
      | some more => some (a :: more)

/-- Embedding of `augment_all_images(initial_images, pad)` (cifar.py lines
33-37). -/
def augment_all_images (rng : Nat → Nat × Nat × Nat) (initial_images : List Image)
    (pad : Nat) : Option (List Image) :=
  augment_all_images_from rng pad 0 initial_images

/-- All pixel values of channel `c` of an image: `image[:, :, c]` flattened. -/
def chanVals (image : Image) (c : Nat) : List Rat :=
  ((List.range image.H).map (fun i =>
    (List.range image.W).map (fun j => image.pixel i j c))).flatten

/-- Model of `np.mean` on a flat list of values. -/
def npMean (xs : List Rat) : Rat := xs.sum / (xs.length : Rat)

/-- Model of `np.std` (population standard deviation); the floating-point
square root is modelled by the computable `Rat.sqrt`. -/
def npStd (xs : List Rat) : Rat :=
  Rat.sqrt (npMean (xs.map fun x => (x - npMean xs) ^ 2))

/-- Embedding of `normalize_image_by_chanel(image)` (cifar.py lines 40-46):
`new_image = np.zeros(image.shape)`, then for each channel 0, 1, 2 the slice
`image[:, :, chanel]` has mean subtracted and is divided by the standard
deviation.  The scalar channel index requires `chanel < C`, so for an image
with fewer than 3 channels the loop raises IndexError (`none`); channels
beyond index 2 keep the `np.zeros` value 0. -/
def normalize_image_by_chanel (image : Image) : Option Image :=
  if 3 ≤ image.C then
    some { image with pixel := fun i j k =>
      if k < 3 then
        (image.pixel i j k - npMean (chanVals image k)) / npStd (chanVals image k)
      else 0 }
  else none

/-- Run a fallible per-element function over a list, propagating the first
failure (the behaviour of a Python `for` loop whose body may raise). -/
def mapOption (f : α → Option β) : List α → Option (List β)
  | [] => some []
  | a :: l =>
    match f a with
    | none => none
    | some b =>
      match mapOption f l with
      | none => none
      | some bs => some (b :: bs)

/-- Embedding of `normalize_all_images_by_chanels` (cifar.py lines 49-53). -/
def normalize_all_images_by_chanels (initial_images : List Image) :
    Option (List Image) :=
  mapOption normalize_image_by_chanel initial_images

/-- Elementwise division of a whole image by a constant (`images / 255`). -/
def image_div (d : Rat) (img : Image) : Image :=
  { img with pixel := fun i j k => img.pixel i j k / d }

/-- Model of numpy integer fancy indexing `xs[idx]`: gather the elements at
the given indices, raising IndexError (`none`) on any out-of-bounds index. -/
def npIndex : List Nat → List α → Option (List α)
  | [], _ => some []
  | i :: rest, xs =>
    match xs.get? i with
    | none => none
    | some x =>
      match npIndex rest xs with
      | none => none
      | some ys => some (x :: ys)

/-- Embedding of `CifarDataSet.shuffle_images_labels` (cifar.py lines 90-94):
the drawn `rand_indexes = np.random.permutation(images.shape[0])` is passed
explicitly, and the same index list is applied to images and labels. -/
def shuffle_images_labels (rand_indexes : List Nat) (images : List α)
    (labels : List β) : Option (List α × List β) :=
  match npIndex rand_indexes images with
  | none => none
  | some shuffled_images =>
    match npIndex rand_indexes labels with
    | none => none
    | some shuffled_labels => some (shuffled_images, shuffled_labels)

/-- State of a `CifarDataSet` (cifar.py lines 56-129): the base corpus
(`self.images`, `self.labels`), the configuration fields, and the mutable
epoch state (`self.epoch_images`, `self.epoch_labels`,
`self._batch_counter`).  The label type `β` is generic (scalar class indices
or one-hot rows). -/
structure CifarDataSet (β : Type) where
  images : List Image
  labels : List β
  n_classes : Nat
  shuffle_every_epoch : Bool
  augmentation : Bool
  normalization : Option String
  epoch_images : List Image
  epoch_labels : List β
  batch_counter : Nat

/-- Embedding of the `num_examples` property (cifar.py lines 115-117):
`self.labels.shape[0]`. -/
def num_examples (s : CifarDataSet β) : Nat := s.labels.length

/-- Embedding of `CifarDataSet.start_new_epoch` (cifar.py lines 96-113), with
the epoch's `np.random.permutation` draw `p` and the augmentation draw stream
`r` passed explicitly.  `none` models an exception escaping the call (numpy
IndexError from augmentation or by-channel normalization); in that case the
already performed `self._batch_counter = 0` assignment is discarded, which no
theorem below observes.  Note `if self.normalization:` treats any non-`None`
string as true but only the three recognized strings select a branch, so an
unrecognized string leaves the images untouched, exactly as the final
`else`-less dispatch of the source does. -/
def start_new_epoch (p : List Nat) (r : Nat → Nat × Nat × Nat)
    (s : CifarDataSet β) : Option (CifarDataSet β) :=
  Option.bind
    (if s.shuffle_every_epoch then shuffle_images_labels p s.images s.labels
     else some (s.images, s.labels)) fun il =>
  Option.bind
    (if s.augmentation then augment_all_images r il.1 4 else some il.1)
    fun images1 =>
  Option.bind
    (match s.normalization with
     | none => some images1
     | some norm =>
       if norm = "divide_255" then some (images1.map (image_div 255))
       else if norm = "divide_256" then some (images1.map (image_div 256))
       else if norm = "by_chanels" then normalize_all_images_by_chanels images1
       else some images1) fun images2 =>
  some { s with batch_counter := 0, epoch_images := images2,
                epoch_labels := il.2 }

/-- Embedding of `CifarDataSet.next_batch` (cifar.py lines 119-129).  The
source recursion is unbounded, so a `fuel` argument is added: `none` at every
fuel models the call never returning (or an exception raised by the epoch
restart).  `perms`/`rngs` supply the random draws of the `start_new_epoch`
call performed at each fuel level.  A Python slice `a[start:end]` with
`0 ≤ start ≤ end` is `(a.drop start).take (end - start)`. -/
def next_batch (perms : Nat → List Nat) (rngs : Nat → Nat → Nat × Nat × Nat)
    (batch_size : Nat) :
    Nat → CifarDataSet β → Option (List Image × List β × CifarDataSet β)
  | 0, _ => none
  | fuel + 1, s =>
    let start := s.batch_counter * batch_size
    let s1 : CifarDataSet β := { s with batch_counter := s.batch_counter + 1 }
    let images_slice := (s.epoch_images.drop start).take batch_size
    let labels_slice := (s.epoch_labels.drop start).take batch_size
    if images_slice.length ≠ batch_size then
      Option.bind (start_new_epoch (perms fuel) (rngs fuel) s1)
        (fun s2 => next_batch perms rngs batch_size fuel s2)
    else
      some (images_slice, labels_slice, s1)

/-- Embedding of `CifarDataSet.__init__` (cifar.py lines 57-88).  The shuffle
dispatch at lines 75-81 has no `else` branch: for an unrecognized shuffle
string, `self.shuffle_every_epoch` is never assigned, and the
`self.start_new_epoch()` call at line 88 raises AttributeError at its first
read of that attribute (line 98), before any epoch buffer is assigned; this is
modelled by the `none` result.  `initPerm` is the permutation drawn by the
`once_prior_train` shuffle, `epochPerm`/`rng` the draws of the initial
`start_new_epoch`.  The epoch fields of the intermediate record are
placeholders that `start_new_epoch` immediately overwrites (in Python they do
not exist until then). -/
def CifarDataSet.init (initPerm epochPerm : List Nat)
    (rng : Nat → Nat × Nat × Nat) (images : List Image) (labels : List β)
    (n_classes : Nat) (shuffle : Option String) (normalization : Option String)
    (augmentation : Bool) : Option (CifarDataSet β) :=
  let dispatch : Option (Option Bool × List Image × List β) :=
    match shuffle with
    | none => some (some false, images, labels)
    | some str =>
      if str = "once_prior_train" then
        match shuffle_images_labels initPerm images labels with
        | none => none
        | some (si, sl) => some (some false, si, sl)
      else if str = "every_epoch" then some (some true, images, labels)
      else some (none, images, labels)
  match dispatch with
  | none => none
  | some (flag?, images', labels') =>
    match flag? with
    | none => none
    | some flag =>
      start_new_epoch epochPerm rng
        { images := images', labels := labels', n_classes := n_classes,
          shuffle_every_epoch := flag, augmentation := augmentation,
          normalization := normalization, epoch_images := [],
          epoch_labels := [], batch_counter := 0 }

/-- Well-formedness invariant of a constructed `CifarDataSet`: the epoch
buffers have the same length as the base corpus, images and labels are
aligned, a dataset with augmentation enabled has an empty corpus (with a
nonempty one, `augment_all_images` raises inside the constructor's
`start_new_epoch`, so no such dataset is ever constructed), and under
by-channel normalization every corpus image has at least 3 channels (same
reason). -/
def WF (s : CifarDataSet β) : Prop :=
  s.epoch_images.length = s.images.length ∧
  s.epoch_labels.length = s.labels.length ∧
  s.images.length = s.labels.length ∧
  (s.augmentation = true → s.images.length = 0) ∧
  (s.normalization = some "by_chanels" → ∀ img ∈ s.images, 3 ≤ img.C)

/-- Embedding of `CifarDataProvider.labels_to_one_hot` (cifar.py lines
217-220): `new_labels = np.zeros((N, n_classes))`, then
`new_labels[range(N), labels] = 1`.  A label outside `[0, n_classes)` makes
the fancy-indexed assignment raise IndexError (`none`). -/
def labels_to_one_hot (n_classes : Nat) (labels : List Nat) :
    Option (List (List Rat)) :=
  mapOption (fun l =>
    if l < n_classes then
      some ((List.range n_classes).map fun j => if j = l then (1 : Rat) else 0)
    else none) labels

/-- Scan worker for `np.argmax`: current index `i`, best index `bi`, best
value `bv`; a strictly greater value updates the best, so ties keep the first
maximum, as numpy does. -/
def argmaxAux : List Rat → Nat → Nat → Rat → Nat
  | [], _, bi, _ => bi
  | x :: rest, i, bi, bv =>
    if bv < x then argmaxAux rest (i + 1) i x else argmaxAux rest (i + 1) bi bv

/-- Model of `np.argmax` on one row: index of the first maximal entry;
`np.argmax` of an empty row raises (`none`). -/
def npArgmax : List Rat → Option Nat
  | [] => none
  | x :: rest => some (argmaxAux rest 1 0 x)

/-- Embedding of `CifarDataProvider.labels_from_one_hot` (cifar.py lines
222-223): `np.argmax(labels, axis=1)`. -/
def labels_from_one_hot (labels : List (List Rat)) : Option (List Nat) :=
  mapOption npArgmax labels

/-- Model of Python `int()` applied to a rational: truncation toward zero. -/
def pythonInt (q : Rat) : Int := if 0 ≤ q then ⌊q⌋ else ⌈q⌉

/-- Model of the Python slice `xs[:k]` for an arbitrary (possibly negative)
integer bound `k`. -/
def pySlice_to (k : Int) (xs : List α) : List α :=
  if 0 ≤ k then xs.take k.toNat else xs.take (xs.length - (-k).toNat)

/-- Model of the Python slice `xs[k:]` for an arbitrary (possibly negative)
integer bound `k`. -/
def pySlice_from (k : Int) (xs : List α) : List α :=
  if 0 ≤ k then xs.drop k.toNat else xs.drop (xs.length - (-k).toNat)

/-- Embedding of the validation carve-out of `CifarDataProvider.__init__`
(cifar.py lines 166-177): `split_idx = int(images.shape[0] *
(1 - validation_split))`; the train split receives `images[:split_idx]` /
`labels[:split_idx]` and the validation split `images[split_idx:]` /
`labels[split_idx:]`. -/
def validation_carve (images : List Image) (labels : List β)
    (validation_split : Rat) : (List Image × List β) × (List Image × List β) :=
  let split_idx := pythonInt ((images.length : Rat) * (1 - validation_split))
  ((pySlice_to split_idx images, pySlice_to split_idx labels),
   (pySlice_from split_idx images, pySlice_from split_idx labels))

/-- A concrete all-zero 32 x 32 x 3 image used by the concrete instances. -/
def img0 : Image := { H := 32, W := 32, C := 3, pixel := fun _ _ _ => 0 }

/-- A constant permutation stream for concrete three-example corpora. -/
def perms3 : Nat → List Nat := fun _ => [0, 1, 2]

/-- A constant permutation stream for concrete one-example corpora. -/
def perms1 : Nat → List Nat := fun _ => [0]

/-- A constant augmentation draw stream. -/
def rngs0 : Nat → Nat → Nat × Nat × Nat := fun _ _ => (0, 0, 0)

/-- A constant per-epoch draw stream. -/
def rng0 : Nat → Nat × Nat × Nat := fun _ => (0, 0, 0)

/-- A concrete three-example dataset, one batch already served. -/
def ds3 : CifarDataSet Nat :=
  { images := [img0, img0, img0], labels := [0, 1, 2], n_classes := 10,
    shuffle_every_epoch := false, augmentation := false, normalization := none,
    epoch_images := [img0, img0, img0], epoch_labels := [0, 1, 2],
    batch_counter := 1 }

/-- A concrete one-example dataset at the start of its epoch. -/
def ds1 : CifarDataSet Nat :=
  { images := [img0], labels := [0], n_classes := 10,
    shuffle_every_epoch := false, augmentation := false, normalization := none,
    epoch_images := [img0], epoch_labels := [0], batch_counter := 0 }

lemma randint_zero_one (r : Nat) : randint 0 1 r = some 0 := by
  simp [randint, Nat.mod_one]

lemma augment_image_eq_none (image : Image) (pad rx ry rf : Nat) :
    augment_image image pad rx ry rf = none := by
  unfold augment_image randint
  by_cases h : 0 < pad * 2 <;> simp [h]

lemma maybe_flip_eq_some_self (r : Nat) (cropped : Image) :
    maybe_flip r cropped = some cropped := by
  simp [maybe_flip, randint, Nat.mod_one]

lemma augment_all_images_from_cons (rng : Nat → Nat × Nat × Nat)
    (pad i : Nat) (img : Image) (rest : List Image) :
    augment_all_images_from rng pad i (img :: rest) = none := by
  simp [augment_all_images_from, augment_image_eq_none]

lemma augment_all_images_eq_some (rng : Nat → Nat × Nat × Nat)
    (images ys : List Image) (pad : Nat)
    (h : augment_all_images rng images pad = some ys) :
    images = [] ∧ ys = [] := by
  cases images with
  | nil =>
    refine ⟨rfl, ?_⟩
    simpa [augment_all_images, augment_all_images_from] using h.symm
  | cons img rest =>
    rw [augment_all_images, augment_all_images_from_cons] at h
    exact absurd h (by simp)

/-- Claim C2: the claim states that for every image batch and every padding
amount P ≥ 0 the augmentation engine returns a batch of the same shape.  The
code cannot: for P > 0 the crop at cifar.py line 23-26 indexes the channel
axis (size C) with the scalar `init_shape[2] = C`, which numpy rejects with
IndexError for every image, and for P = 0 the offset draw
`np.random.randint(0, 0)` raises ValueError first.  So `augment_image` raises
on every input, and `augment_all_images` (which moreover ignores its `pad`
argument, hard-coding 4) raises on every nonempty batch. -/
theorem C2_augmentation_always_raises :
    (∀ (image : Image) (pad rx ry rf : Nat),
       augment_image image pad rx ry rf = none) ∧
    (∀ (rng : Nat → Nat × Nat × Nat) (img : Image) (rest : List Image)
       (pad : Nat), augment_all_images rng (img :: rest) pad = none) :=
  ⟨fun image pad rx ry rf => augment_image_eq_none image pad rx ry rf,
   fun rng img rest pad => by
     rw [augment_all_images]; exact augment_all_images_from_cons rng pad 0 img rest⟩

/-- Claim C4: the claim states the horizontal mirror is a genuine random
draw, with both the mirrored and the unmirrored outcome reachable.  In the
code (cifar.py line 27) the draw is `flip = np.random.randint(0, 1)`, whose
exclusive upper bound makes it return 0 for every seed, so the flip branch at
lines 28-29 is unreachable and the outcome is constant: the unmirrored crop
for every draw. -/
theorem C4_flip_never_happens :
    (∀ r : Nat, randint 0 1 r = some 0) ∧
    (∀ (r : Nat) (cropped : Image), maybe_flip r cropped = some cropped) :=
  ⟨fun r => randint_zero_one r,
   fun r cropped => maybe_flip_eq_some_self r cropped⟩

lemma npIndex_length :
    ∀ (idx : List Nat) (xs ys : List α), npIndex idx xs = some ys →
      ys.length = idx.length := by
  intro idx
  induction idx with
  | nil => intro xs ys h; simp [npIndex] at h; simp [← h]
  | cons i rest ih =>
    intro xs ys h
    unfold npIndex at h
    cases hx : xs.get? i with
    | none => rw [hx] at h; exact absurd h (by simp)
    | some x =>
      rw [hx] at h
      cases hrest : npIndex rest xs with
      | none => rw [hrest] at h; exact absurd h (by simp)
      | some ys0 =>
        rw [hrest] at h
        simp only [Option.some_inj] at h
        subst h
        simp [ih xs ys0 hrest]

lemma npIndex_spec (xs : List α) :
    ∀ (idx : List Nat), (∀ i ∈ idx, i < xs.length) →
      ∃ ys, npIndex idx xs = some ys ∧ ys.length = idx.length ∧
        (∀ y ∈ ys, y ∈ xs) ∧
        ∀ (k i : Nat), idx.get? k = some i → ys.get? k = xs.get? i := by
  intro idx
  induction idx with
  | nil =>
    intro _
    exact ⟨[], by simp [npIndex], by simp, by simp, fun k i h => by simp at h⟩
  | cons j rest ih =>
    intro hmem
    have hj : j < xs.length := hmem j (by simp)
    obtain ⟨x, hx⟩ : ∃ x, xs.get? j = some x :=
      ⟨xs.get ⟨j, hj⟩, List.get?_eq_get hj⟩
    obtain ⟨ys, hys, hlen, hsub, hpt⟩ := ih (fun i hi => hmem i (by simp [hi]))
    refine ⟨x :: ys, ?_, by simp [hlen], ?_, ?_⟩
    · unfold npIndex; rw [hx, hys]
    · intro y hy
      rcases List.mem_cons.mp hy with rfl | hy'
      · exact List.get?_mem hx
      · exact hsub y hy'
    · intro k i hk
      cases k with
      | zero =>
        simp only [List.get?_cons_zero, Option.some_inj] at hk
        subst hk
        rw [List.get?_cons_zero]
        exact hx.symm
      | succ k' =>
        simp only [List.get?_cons_succ] at hk ⊢
        exact hpt k' i hk

lemma shuffle_images_labels_spec (perm : List Nat) (images : List α)
    (labels : List β)
    (himg : ∀ i ∈ perm, i < images.length)
    (hlab : ∀ i ∈ perm, i < labels.length) :
    ∃ si sl, shuffle_images_labels perm images labels = some (si, sl) ∧
      si.length = perm.length ∧ sl.length = perm.length ∧
      (∀ y ∈ si, y ∈ images) ∧
      ∀ (k i : Nat), perm.get? k = some i →
        si.get? k = images.get? i ∧ sl.get? k = labels.get? i := by
  obtain ⟨si, hsi, hsilen, hsub, hsipt⟩ := npIndex_spec images perm himg
  obtain ⟨sl, hsl, hsllen, -, hslpt⟩ := npIndex_spec labels perm hlab
  refine ⟨si, sl, ?_, hsilen, hsllen, hsub, fun k i hk => ⟨hsipt k i hk, hslpt k i hk⟩⟩
  unfold shuffle_images_labels
  rw [hsi, hsl]

/-- Claim C7: every shuffle applies one identical index permutation to the
image sequence and the label sequence, so alignment is preserved: for every
aligned corpus and every permutation drawn, the shuffle succeeds, both output
sequences have the corpus length, and position `k` of the shuffled images and
of the shuffled labels both come from the same original index `perm[k]`. -/
theorem C7_shuffle_preserves_alignment (images : List α) (labels : List β)
    (perm : List Nat) (hlen : images.length = labels.length)
    (hperm : perm.Perm (List.range images.length)) :
    ∃ si sl, shuffle_images_labels perm images labels = some (si, sl) ∧
      si.length = images.length ∧ sl.length = labels.length ∧
      ∀ (k i : Nat), perm.get? k = some i →
        si.get? k = images.get? i ∧ sl.get? k = labels.get? i := by
  have hmem : ∀ i ∈ perm, i < images.length := fun i hi =>
    List.mem_range.mp (hperm.mem_iff.mp hi)
  have hplen : perm.length = images.length := by
    simpa using hperm.length_eq
  obtain ⟨si, sl, heq, h1, h2, -, hpt⟩ :=
    shuffle_images_labels_spec perm images labels hmem
      (fun i hi => hlen ▸ hmem i hi)
  exact ⟨si, sl, heq, by omega, by omega, hpt⟩

/-- Witness for C7 at a concrete corpus and permutation. -/
theorem C7_shuffle_preserves_alignment_witness :
    ([2, 0, 1].Perm (List.range 3)) ∧
    (shuffle_images_labels [2, 0, 1] [(10 : Nat), 20, 30]
      [(5 : Nat), 6, 7]).isSome = true := by
  refine ⟨by decide, ?_⟩
  obtain ⟨si, sl, heq, -⟩ :=
    C7_shuffle_preserves_alignment [(10 : Nat), 20, 30] [(5 : Nat), 6, 7]
      [2, 0, 1] rfl (by decide)
  rw [heq]
  rfl

lemma mapOption_length (f : α → Option β) :
    ∀ (l : List α) (ys : List β), mapOption f l = some ys →
      ys.length = l.length := by
  intro l
  induction l with
  | nil => intro ys h; simp [mapOption] at h; simp [← h]
  | cons a l ih =>
    intro ys h
    unfold mapOption at h
    cases hfa : f a with
    | none => rw [hfa] at h; exact absurd h (by simp)
    | some b =>
      rw [hfa] at h
      cases hml : mapOption f l with
      | none => rw [hml] at h; exact absurd h (by simp)
      | some bs =>
        rw [hml] at h
        simp only [Option.some_inj] at h
        subst h
        simp [ih bs hml]

lemma mapOption_total (f : α → Option β) :
    ∀ (l : List α), (∀ a ∈ l, (f a).isSome) →
      ∃ ys, mapOption f l = some ys ∧ ys.length = l.length := by
  intro l
  induction l with
  | nil => intro _; exact ⟨[], by simp [mapOption], by simp⟩
  | cons a l ih =>
    intro h
    obtain ⟨b, hb⟩ := Option.isSome_iff_exists.mp (h a (by simp))
    obtain ⟨ys, hys, hlen⟩ := ih (fun a ha => h a (by simp [ha]))
    refine ⟨b :: ys, ?_, by simp [hlen]⟩
    unfold mapOption
    rw [hb, hys]

lemma argmaxAux_of_le (bv : Rat) :
    ∀ (xs : List Rat) (i bi : Nat), (∀ x ∈ xs, x ≤ bv) →
      argmaxAux xs i bi bv = bi := by
  intro xs
  induction xs with
  | nil => intro i bi _; rfl
  | cons x rest ih =>
    intro i bi h
    have hx : ¬ bv < x := not_lt.mpr (h x (by simp))
    rw [argmaxAux, if_neg hx]
    exact ih (i + 1) bi (fun y hy => h y (by simp [hy]))

lemma indicator_mem_le_one (l : Nat) (xs : List Nat) (x : Rat)
    (hx : x ∈ xs.map fun j => if j = l then (1 : Rat) else 0) : x ≤ 1 := by
  obtain ⟨j, -, rfl⟩ := List.mem_map.mp hx
  split <;> norm_num

lemma argmaxAux_range_indicator (l : Nat) :
    ∀ (k a bi : Nat), a ≤ l → l < a + k →
      argmaxAux ((List.range' a k).map fun j =>
        if j = l then (1 : Rat) else 0) a bi 0 = l := by
  intro k
  induction k with
  | zero => intro a bi h1 h2; omega
  | succ k ih =>
    intro a bi h1 h2
    rw [List.range'_succ, List.map_cons]
    by_cases ha : a = l
    · subst ha
      rw [if_pos rfl, argmaxAux, if_pos (by norm_num)]
      exact argmaxAux_of_le 1 _ (a + 1) a
        (indicator_mem_le_one a (List.range' (a + 1) k))
    · rw [argmaxAux, if_neg (by simp [ha])]
      exact ih (a + 1) bi (by omega) (by omega)

lemma npArgmax_one_hot_row (n l : Nat) (h : l < n) :
    npArgmax ((List.range n).map fun j => if j = l then (1 : Rat) else 0) =
      some l := by
  obtain ⟨m, rfl⟩ : ∃ m, n = m + 1 := ⟨n - 1, by omega⟩
  rw [List.range_eq_range', List.range'_succ, List.map_cons, npArgmax]
  by_cases hl : l = 0
  · subst hl
    rw [if_pos rfl]
    simp only [Option.some_inj]
    exact argmaxAux_of_le 1 _ 1 0 (indicator_mem_le_one 0 (List.range' 1 m))
  · rw [if_neg (by omega)]
    simp only [Option.some_inj]
    exact argmaxAux_range_indicator l m 1 0 (by omega) (by omega)

/-- Claim C9: for every list of class indices all lying in
`[0, n_classes)`, one-hot encoding succeeds and argmax decoding returns the
original list: the encoding round-trips. -/
theorem C9_one_hot_round_trip (n_classes : Nat) (labels : List Nat)
    (h : ∀ l ∈ labels, l < n_classes) :
    ∃ oh, labels_to_one_hot n_classes labels = some oh ∧
      labels_from_one_hot oh = some labels := by
  induction labels with
  | nil => exact ⟨[], by simp [labels_to_one_hot, mapOption],
      by simp [labels_from_one_hot, mapOption]⟩
  | cons l ls ih =>
    have hl : l < n_classes := h l (by simp)
    obtain ⟨oh, hoh, hdec⟩ := ih (fun x hx => h x (by simp [hx]))
    refine ⟨((List.range n_classes).map fun j =>
      if j = l then (1 : Rat) else 0) :: oh, ?_, ?_⟩
    · rw [labels_to_one_hot] at hoh ⊢
      rw [mapOption, if_pos hl, hoh]
    · rw [labels_from_one_hot] at hdec ⊢
      rw [mapOption, npArgmax_one_hot_row n_classes l hl, hdec]

/-- Witness for C9 at a concrete label list. -/
theorem C9_one_hot_round_trip_witness :
    (labels_to_one_hot 3 [0, 2, 1]).bind labels_from_one_hot =
      some [0, 2, 1] := by
  obtain ⟨oh, h1, h2⟩ := C9_one_hot_round_trip 3 [0, 2, 1] (by decide)
  rw [h1]
  simpa using h2

lemma shuffle_images_labels_lengths (perm : List Nat) (images : List α)
    (labels : List β) (si : List α) (sl : List β)
    (h : shuffle_images_labels perm images labels = some (si, sl)) :
    si.length = perm.length ∧ sl.length = perm.length := by
  unfold shuffle_images_labels at h
  cases h1 : npIndex perm images with
  | none => rw [h1] at h; exact absurd h (by simp)
  | some si0 =>
    rw [h1] at h
    cases h2 : npIndex perm labels with
    | none => rw [h2] at h; exact absurd h (by simp)
    | some sl0 =>
      rw [h2] at h
      simp only [Option.some_inj, Prod.mk.injEq] at h
      obtain ⟨rfl, rfl⟩ := h
      exact ⟨npIndex_length perm images si0 h1, npIndex_length perm labels sl0 h2⟩

lemma start_new_epoch_frame (p : List Nat) (r : Nat → Nat × Nat × Nat)
    (s s' : CifarDataSet β) (h : start_new_epoch p r s = some s') :
    s'.images = s.images ∧ s'.labels = s.labels ∧ s'.n_classes = s.n_classes ∧
    s'.shuffle_every_epoch = s.shuffle_every_epoch ∧
    s'.augmentation = s.augmentation ∧ s'.normalization = s.normalization ∧
    s'.batch_counter = 0 := by
  unfold start_new_epoch at h
  obtain ⟨il, -, h⟩ := Option.bind_eq_some'.mp h
  obtain ⟨images1, -, h⟩ := Option.bind_eq_some'.mp h
  obtain ⟨images2, -, h⟩ := Option.bind_eq_some'.mp h
  simp only [Option.some_inj] at h
  subst h
  exact ⟨rfl, rfl, rfl, rfl, rfl, rfl, rfl⟩

lemma start_new_epoch_lengths_of_eq (p : List Nat) (r : Nat → Nat × Nat × Nat)
    (s s' : CifarDataSet β) (h : start_new_epoch p r s = some s')
    (hp : p.length = s.images.length)
    (hlen : s.images.length = s.labels.length) :
    (s'.epoch_images.length = s.images.length ∧
     s'.epoch_labels.length = s.labels.length) ∧
    (s.augmentation = true → s.images.length = 0) := by
  unfold start_new_epoch at h
  obtain ⟨il, heq0, h⟩ := Option.bind_eq_some'.mp h
  obtain ⟨images1, heq1, h⟩ := Option.bind_eq_some'.mp h
  obtain ⟨images2, heq2, h⟩ := Option.bind_eq_some'.mp h
  simp only [Option.some_inj] at h
  subst h
  have h0 : il.1.length = s.images.length ∧ il.2.length = s.labels.length := by
    by_cases hf : s.shuffle_every_epoch
    · rw [if_pos hf] at heq0
      obtain ⟨si, sl⟩ := il
      have hll := shuffle_images_labels_lengths p s.images s.labels si sl heq0
      refine ⟨?_, ?_⟩
      · show si.length = s.images.length
        omega
      · show sl.length = s.labels.length
        omega
    · rw [if_neg hf] at heq0
      simp only [Option.some_inj] at heq0
      rw [← heq0]
      exact ⟨rfl, rfl⟩
  have haug0 : s.augmentation = true → s.images.length = 0 := by
    intro ha
    rw [if_pos ha] at heq1
    obtain ⟨hnil, -⟩ := augment_all_images_eq_some r il.1 images1 4 heq1
    have h00 := h0.1
    rw [hnil] at h00
    simpa using h00.symm
  have h1 : images1.length = il.1.length := by
    by_cases ha : s.augmentation
    · rw [if_pos ha] at heq1
      obtain ⟨hnil, rfl⟩ := augment_all_images_eq_some r il.1 images1 4 heq1
      simp [hnil]
    · rw [if_neg ha] at heq1
      simp only [Option.some_inj] at heq1
      rw [heq1]
  have h2 : images2.length = images1.length := by
    cases hn : s.normalization with
    | none =>
      rw [hn] at heq2
      simp only [Option.some_inj] at heq2
      rw [heq2]
    | some norm =>
      rw [hn] at heq2
      simp only [] at heq2
      by_cases e255 : norm = "divide_255"
      · rw [if_pos e255] at heq2
        simp only [Option.some_inj] at heq2
        rw [← heq2, List.length_map]
      · rw [if_neg e255] at heq2
        by_cases e256 : norm = "divide_256"
        · rw [if_pos e256] at heq2
          simp only [Option.some_inj] at heq2
          rw [← heq2, List.length_map]
        · rw [if_neg e256] at heq2
          by_cases ebc : norm = "by_chanels"
          · rw [if_pos ebc] at heq2
            exact mapOption_length normalize_image_by_chanel images1 images2 heq2
          · rw [if_neg ebc] at heq2
            simp only [Option.some_inj] at heq2
            rw [heq2]
  exact ⟨⟨by simp only []; omega, by simp only []; omega⟩, haug0⟩

lemma start_new_epoch_total (p : List Nat) (r : Nat → Nat × Nat × Nat)
    (s : CifarDataSet β) (hlen : s.images.length = s.labels.length)
    (hperm : p.Perm (List.range s.images.length))
    (haug : s.augmentation = true → s.images.length = 0)
    (hbc : s.normalization = some "by_chanels" → ∀ img ∈ s.images, 3 ≤ img.C) :
    ∃ s', start_new_epoch p r s = some s' ∧
      s'.epoch_images.length = s.images.length ∧
      s'.epoch_labels.length = s.labels.length ∧
      s'.batch_counter = 0 := by
  obtain ⟨images0, labels0, heq0, hi0, hl0, hsub0⟩ :
      ∃ images0 labels0,
        (if s.shuffle_every_epoch then shuffle_images_labels p s.images s.labels
         else some (s.images, s.labels)) = some (images0, labels0) ∧
        images0.length = s.images.length ∧ labels0.length = s.labels.length ∧
        ∀ y ∈ images0, y ∈ s.images := by
    by_cases hf : s.shuffle_every_epoch
    · have hmem : ∀ i ∈ p, i < s.images.length := fun i hi =>
        List.mem_range.mp (hperm.mem_iff.mp hi)
      have hplen : p.length = s.images.length := by simpa using hperm.length_eq
      obtain ⟨si, sl, heq, h1, h2, hsub, -⟩ :=
        shuffle_images_labels_spec p s.images s.labels hmem
          (fun i hi => hlen ▸ hmem i hi)
      exact ⟨si, sl, by rw [if_pos hf]; exact heq, by omega, by omega, hsub⟩
    · exact ⟨s.images, s.labels, by rw [if_neg hf], rfl, rfl, fun y hy => hy⟩
  obtain ⟨images1, heq1, hi1, hsub1⟩ :
      ∃ images1,
        (if s.augmentation then augment_all_images r images0 4 else some images0)
          = some images1 ∧
        images1.length = images0.length ∧ ∀ y ∈ images1, y ∈ s.images := by
    by_cases ha : s.augmentation
    · have hz : images0 = [] := List.length_eq_zero.mp (by rw [hi0]; exact haug ha)
      subst hz
      exact ⟨[], by rw [if_pos ha]; rfl, rfl, by simp⟩
    · exact ⟨images0, by rw [if_neg ha], rfl, hsub0⟩
  obtain ⟨images2, heq2, hi2⟩ :
      ∃ images2,
        (match s.normalization with
         | none => some images1
         | some norm =>
           if norm = "divide_255" then some (images1.map (image_div 255))
           else if norm = "divide_256" then some (images1.map (image_div 256))
           else if norm = "by_chanels" then normalize_all_images_by_chanels images1
           else some images1) = some images2 ∧
        images2.length = images1.length := by
    cases hn : s.normalization with
    | none => exact ⟨images1, rfl, rfl⟩
    | some norm =>
      by_cases e255 : norm = "divide_255"
      · exact ⟨images1.map (image_div 255),
          by simp only []; rw [if_pos e255], by simp⟩
      · by_cases e256 : norm = "divide_256"
        · exact ⟨images1.map (image_div 256),
            by simp only []; rw [if_neg e255, if_pos e256], by simp⟩
        · by_cases ebc : norm = "by_chanels"
          · subst ebc
            have hall : ∀ img ∈ images1, (normalize_image_by_chanel img).isSome := by
              intro img himg
              have h3 : 3 ≤ img.C := hbc hn img (hsub1 img himg)
              simp [normalize_image_by_chanel, h3]
            obtain ⟨ys, hys, hyl⟩ :=
              mapOption_total normalize_image_by_chanel images1 hall
            refine ⟨ys, ?_, by omega⟩
            simp only []
            rw [if_neg e255, if_neg e256]
            simpa [normalize_all_images_by_chanels] using hys
          · exact ⟨images1,
              by simp only []; rw [if_neg e255, if_neg e256, if_neg ebc], rfl⟩
  have hrun : start_new_epoch p r s =
      some { s with batch_counter := 0, epoch_images := images2, epoch_labels := labels0 } := by
    unfold start_new_epoch
    rw [heq0, Option.some_bind']
    simp only []
    rw [heq1, Option.some_bind', heq2, Option.some_bind']
  refine ⟨_, hrun, ?_, ?_, rfl⟩
  · show images2.length = s.images.length
    omega
  · show labels0.length = s.labels.length
    exact hl0

lemma next_batch_succ (perms : Nat → List Nat)
    (rngs : Nat → Nat → Nat × Nat × Nat) (bs fuel : Nat)
    (s : CifarDataSet β) :
    next_batch perms rngs bs (fuel + 1) s =
      (if ((s.epoch_images.drop (s.batch_counter * bs)).take bs).length ≠ bs
       then
         Option.bind
           (start_new_epoch (perms fuel) (rngs fuel)
             { s with batch_counter := s.batch_counter + 1 })
           (fun s2 => next_batch perms rngs bs fuel s2)
       else
         some ((s.epoch_images.drop (s.batch_counter * bs)).take bs,
               (s.epoch_labels.drop (s.batch_counter * bs)).take bs,
               { s with batch_counter := s.batch_counter + 1 })) := rfl

lemma next_batch_frame (perms : Nat → List Nat)
    (rngs : Nat → Nat → Nat × Nat × Nat) (bs : Nat) :
    ∀ (fuel : Nat) (s : CifarDataSet β) (imgs : List Image) (lbls : List β)
      (s' : CifarDataSet β),
      next_batch perms rngs bs fuel s = some (imgs, lbls, s') →
      s'.images = s.images ∧ s'.labels = s.labels := by
  intro fuel
  induction fuel with
  | zero => intro s imgs lbls s' h; exact absurd h (by simp [next_batch])
  | succ fuel ih =>
    intro s imgs lbls s' h
    rw [next_batch_succ] at h
    by_cases hg : ((s.epoch_images.drop (s.batch_counter * bs)).take bs).length ≠ bs
    · rw [if_pos hg] at h
      obtain ⟨s2, heq, h⟩ := Option.bind_eq_some'.mp h
      have hf := start_new_epoch_frame (perms fuel) (rngs fuel) _ s2 heq
      have hr := ih s2 imgs lbls s' h
      exact ⟨by rw [hr.1, hf.1], by rw [hr.2, hf.2.1]⟩
    · rw [if_neg hg] at h
      simp only [Option.some_inj, Prod.mk.injEq] at h
      obtain ⟨-, -, rfl⟩ := h
      exact ⟨rfl, rfl⟩

/-- Claim C8: after construction, neither `start_new_epoch` nor `next_batch`
modifies the base corpus fields `images`/`labels` or the value of
`num_examples`: every successful run returns a state whose base corpus is the
one it started from (epoch materialization always builds new buffers). -/
theorem C8_base_corpus_never_mutated (β : Type) :
    (∀ (p : List Nat) (r : Nat → Nat × Nat × Nat) (s s' : CifarDataSet β),
       start_new_epoch p r s = some s' →
       s'.images = s.images ∧ s'.labels = s.labels ∧
       num_examples s' = num_examples s) ∧
    (∀ (perms : Nat → List Nat) (rngs : Nat → Nat → Nat × Nat × Nat)
       (bs fuel : Nat) (s : CifarDataSet β) (imgs : List Image) (lbls : List β)
       (s' : CifarDataSet β),
       next_batch perms rngs bs fuel s = some (imgs, lbls, s') →
       s'.images = s.images ∧ s'.labels = s.labels ∧
       num_examples s' = num_examples s) := by
  constructor
  · intro p r s s' h
    have hf := start_new_epoch_frame p r s s' h
    exact ⟨hf.1, hf.2.1, by unfold num_examples; rw [hf.2.1]⟩
  · intro perms rngs bs fuel s imgs lbls s' h
    have hf := next_batch_frame perms rngs bs fuel s imgs lbls s' h
    exact ⟨hf.1, hf.2, by unfold num_examples; rw [hf.2]⟩

/-- The state produced by running `start_new_epoch` on the concrete dataset
`ds1` (no shuffle, no augmentation, no normalization). -/
def ds1e : CifarDataSet Nat :=
  { ds1 with batch_counter := 0, epoch_images := [img0], epoch_labels := [0] }

/-- The state produced by serving one batch of size 1 from `ds1`. -/
def ds1b : CifarDataSet Nat := { ds1 with batch_counter := 1 }

/-- Witness for C8 at a concrete dataset: one epoch restart and one served
batch, both leaving the base corpus untouched. -/
theorem C8_base_corpus_never_mutated_witness :
    (ds1e.images = ds1.images ∧ ds1e.labels = ds1.labels ∧
      num_examples ds1e = num_examples ds1) ∧
    (ds1b.images = ds1.images ∧ ds1b.labels = ds1.labels ∧
      num_examples ds1b = num_examples ds1) :=
  ⟨(C8_base_corpus_never_mutated Nat).1 [0] rng0 ds1 ds1e rfl,
   (C8_base_corpus_never_mutated Nat).2 perms1 rngs0 1 1 ds1 [img0] [0] ds1b rfl⟩

/-- Claim C10: `next_batch 0` terminates at once and returns an empty image
slice and an empty label slice, with no epoch restart: the state is unchanged
except for the incremented batch counter. -/
theorem C10_next_batch_zero (perms : Nat → List Nat)
    (rngs : Nat → Nat → Nat × Nat × Nat) (s : CifarDataSet β) :
    next_batch perms rngs 0 1 s =
      some ([], [], { s with batch_counter := s.batch_counter + 1 }) := by
  rw [next_batch_succ]
  simp

/-- Claim C5: for every batch_size strictly greater than `num_examples`,
`next_batch` never returns a batch: at every fuel the fuel-indexed model
returns `none`, i.e. the source recursion keeps restarting epochs (or dies in
an exception raised inside a restart) without ever producing a batch, so
`next_batch` terminates with a batch only under the precondition
`batch_size ≤ num_examples`. -/
theorem C5_next_batch_never_returns (s : CifarDataSet β)
    (perms : Nat → List Nat) (rngs : Nat → Nat → Nat × Nat × Nat) (bs : Nat)
    (hbig : num_examples s < bs)
    (hlen : s.images.length = s.labels.length)
    (hep : s.epoch_images.length ≤ s.images.length)
    (hperm : ∀ k, (perms k).length = s.images.length) :
    ∀ fuel, next_batch perms rngs bs fuel s = none := by
  intro fuel
  induction fuel generalizing s with
  | zero => rfl
  | succ fuel ih =>
    rw [next_batch_succ]
    have hg : ((s.epoch_images.drop (s.batch_counter * bs)).take bs).length ≠ bs := by
      have h1 := List.length_take bs (s.epoch_images.drop (s.batch_counter * bs))
      have h2 := List.length_drop (s.batch_counter * bs) s.epoch_images
      unfold num_examples at hbig
      omega
    rw [if_pos hg]
    cases heq : start_new_epoch (perms fuel) (rngs fuel)
        { s with batch_counter := s.batch_counter + 1 } with
    | none => rfl
    | some s2 =>
      rw [Option.some_bind']
      have hf := start_new_epoch_frame _ _ _ _ heq
      have h2i : s2.images = s.images := hf.1
      have h2l : s2.labels = s.labels := hf.2.1
      have hL : s2.epoch_images.length = s.images.length ∧
          s2.epoch_labels.length = s.labels.length :=
        (start_new_epoch_lengths_of_eq _ _ _ _ heq (hperm fuel) hlen).1
      refine ih s2 ?_ ?_ ?_ ?_
      · unfold num_examples at hbig ⊢
        rw [h2l]
        exact hbig
      · rw [h2i, h2l]
        exact hlen
      · rw [h2i]
        exact le_of_eq hL.1
      · intro k
        rw [h2i]
        exact hperm k

/-- Witness for C5 at a concrete one-example dataset and batch size 2. -/
theorem C5_next_batch_never_returns_witness :
    num_examples ds1 < 2 ∧ next_batch perms1 rngs0 2 5 ds1 = none := by
  refine ⟨by decide, ?_⟩
  exact C5_next_batch_never_returns ds1 perms1 rngs0 2 (by decide) rfl
    (by decide) (fun k => rfl) 5

/-- Claim C1: on every well-formed epoch dataset, for every batch_size with
1 ≤ batch_size ≤ num_examples, `next_batch` returns exactly batch_size
aligned image/label pairs and never a short batch: fuel 2 always suffices,
i.e. either the slice at the current cursor is already full, or the remainder
is dropped, `start_new_epoch` runs once, and the retried request succeeds. -/
theorem C1_next_batch_exact (s : CifarDataSet β) (perms : Nat → List Nat)
    (rngs : Nat → Nat → Nat × Nat × Nat) (bs : Nat) (hwf : WF s)
    (hbs1 : 1 ≤ bs) (hbs2 : bs ≤ num_examples s)
    (hperm : (perms 1).Perm (List.range s.images.length)) :
    ∃ imgs lbls s2, next_batch perms rngs bs 2 s = some (imgs, lbls, s2) ∧
      imgs.length = bs ∧ lbls.length = bs := by
  obtain ⟨he1, he2, he3, he4, he5⟩ := hwf
  unfold num_examples at hbs2
  rw [next_batch_succ]
  by_cases hg : ((s.epoch_images.drop (s.batch_counter * bs)).take bs).length ≠ bs
  · rw [if_pos hg]
    obtain ⟨s2, hrun, hL1, hL2, hbc0⟩ :=
      start_new_epoch_total (perms 1) (rngs 1)
        { s with batch_counter := s.batch_counter + 1 } he3 hperm he4 he5
    rw [hrun, Option.some_bind', next_batch_succ]
    have hslice : ((s2.epoch_images.drop (s2.batch_counter * bs)).take bs).length = bs := by
      rw [List.length_take, List.length_drop, hbc0]
      have hL1' : s2.epoch_images.length = s.images.length := hL1
      omega
    rw [if_neg (not_not_intro hslice)]
    refine ⟨_, _, _, rfl, hslice, ?_⟩
    have hL2' : s2.epoch_labels.length = s.labels.length := hL2
    rw [List.length_take, List.length_drop, hbc0]
    omega
  · rw [if_neg hg]
    have hA : ((s.epoch_images.drop (s.batch_counter * bs)).take bs).length = bs :=
      not_not.mp hg
    refine ⟨_, _, _, rfl, hA, ?_⟩
    rw [List.length_take, List.length_drop] at hA ⊢
    omega

/-- Witness for C1 at a concrete three-example dataset whose cursor forces
the epoch-rollover retry. -/
theorem C1_next_batch_exact_witness :
    WF ds3 ∧ (next_batch perms3 rngs0 2 2 ds3).map
      (fun t => (t.1.length, t.2.1.length)) = some (2, 2) := by
  have hwf : WF ds3 := by
    refine ⟨rfl, rfl, rfl, ?_, ?_⟩ <;> intro h <;> exact absurd h (by decide)
  obtain ⟨imgs, lbls, s2, heq, hl1, hl2⟩ :=
    C1_next_batch_exact ds3 perms3 rngs0 2 hwf (by decide) (by decide) (by decide)
  refine ⟨hwf, ?_⟩
  rw [heq]
  simp [hl1, hl2]

/-- Claim C3 (amended): an unrecognized shuffle mode string makes
construction fail — `shuffle_every_epoch` is never assigned and the
constructor's `start_new_epoch` call raises AttributeError at its first read
of the attribute, before any epoch buffer is assigned — but an unrecognized
normalization mode string does not fail: construction succeeds and the
unrecognized mode is silently ignored, the epoch buffer holding the images
unnormalized. -/
theorem C3_unrecognized_modes (images : List Image) (labels : List β)
    (n_classes : Nat) (initPerm epochPerm : List Nat)
    (rng : Nat → Nat × Nat × Nat) (shuffleStr normStr : String)
    (normalization : Option String) (augmentation : Bool)
    (hs1 : shuffleStr ≠ "once_prior_train") (hs2 : shuffleStr ≠ "every_epoch")
    (hn1 : normStr ≠ "divide_255") (hn2 : normStr ≠ "divide_256")
    (hn3 : normStr ≠ "by_chanels") :
    CifarDataSet.init initPerm epochPerm rng images labels n_classes
      (some shuffleStr) normalization augmentation = none ∧
    CifarDataSet.init initPerm epochPerm rng images labels n_classes
      none (some normStr) false =
      some { images := images, labels := labels, n_classes := n_classes,
             shuffle_every_epoch := false, augmentation := false,
             normalization := some normStr, epoch_images := images,
             epoch_labels := labels, batch_counter := 0 } := by
  constructor
  · unfold CifarDataSet.init
    simp only []
    rw [if_neg hs1, if_neg hs2]
  · unfold CifarDataSet.init start_new_epoch
    simp only [Bool.false_eq_true, if_false, Option.some_bind']
    rw [if_neg hn1, if_neg hn2, if_neg hn3]
    rfl

/-- Counterexample to claim C3 as stated: constructing a dataset with the
unrecognized normalization mode string "unknown_mode" does not fail at
construction — a dataset is returned and batches can be served from it. -/
theorem C3_counterexample_construction_succeeds :
    (CifarDataSet.init [] [] rng0 [img0] [(0 : Nat)] 10 none
      (some "unknown_mode") false).isSome = true := by
  rfl

/-- Witness for C3 (amended) at concrete unrecognized mode strings. -/
theorem C3_unrecognized_modes_witness :
    ("weird" ≠ "once_prior_train") ∧
    CifarDataSet.init [] [] rng0 [img0] [(0 : Nat)] 10 (some "weird")
      none false = none ∧
    (CifarDataSet.init [] [] rng0 [img0] [(0 : Nat)] 10 none (some "weird")
      false).isSome = true := by
  have h := C3_unrecognized_modes [img0] [(0 : Nat)] 10 [] [] rng0 "weird"
    "weird" none false (by decide) (by decide) (by decide) (by decide)
    (by decide)
  exact ⟨by decide, h.1, by rw [h.2]; rfl⟩

/-- Claim C6: with a validation fraction f (0 ≤ f ≤ 1), the provider assigns
the first ⌊N * (1 - f)⌋ examples of the decoded pre-shuffle training corpus
(in original order) to the training split and the remaining tail to the
validation split, so concatenating train then validation in original order
reconstructs the corpus exactly (both for images and for labels). -/
theorem C6_validation_carve_spec (images : List Image) (labels : List β)
    (f : Rat) (_h0 : 0 ≤ f) (h1 : f ≤ 1) :
    validation_carve images labels f =
      ((images.take (⌊(images.length : Rat) * (1 - f)⌋).toNat,
        labels.take (⌊(images.length : Rat) * (1 - f)⌋).toNat),
       (images.drop (⌊(images.length : Rat) * (1 - f)⌋).toNat,
        labels.drop (⌊(images.length : Rat) * (1 - f)⌋).toNat)) ∧
    (validation_carve images labels f).1.1 ++
      (validation_carve images labels f).2.1 = images ∧
    (validation_carve images labels f).1.2 ++
      (validation_carve images labels f).2.2 = labels := by
  have hq : 0 ≤ (images.length : Rat) * (1 - f) :=
    mul_nonneg (Nat.cast_nonneg images.length) (by linarith)
  have hpi : pythonInt ((images.length : Rat) * (1 - f)) =
      ⌊(images.length : Rat) * (1 - f)⌋ := by
    unfold pythonInt
    rw [if_pos hq]
  have hfl : 0 ≤ ⌊(images.length : Rat) * (1 - f)⌋ := Int.floor_nonneg.mpr hq
  have hcarve : validation_carve images labels f =
      ((images.take (⌊(images.length : Rat) * (1 - f)⌋).toNat,
        labels.take (⌊(images.length : Rat) * (1 - f)⌋).toNat),
       (images.drop (⌊(images.length : Rat) * (1 - f)⌋).toNat,
        labels.drop (⌊(images.length : Rat) * (1 - f)⌋).toNat)) := by
    unfold validation_carve pySlice_to pySlice_from
    simp only []
    rw [hpi, if_pos hfl, if_pos hfl, if_pos hfl, if_pos hfl]
  refine ⟨hcarve, ?_, ?_⟩ <;> rw [hcarve] <;> simp [List.take_append_drop]

/-- Witness for C6: a 50000-example corpus with f = 1/10 splits into a
45000-example training split and a 5000-example validation split whose
concatenation is the original corpus. -/
theorem C6_validation_carve_spec_witness :
    (0 : Rat) ≤ 1 / 10 ∧ (1 : Rat) / 10 ≤ 1 ∧
    (validation_carve (List.replicate 50000 img0)
      (List.replicate 50000 (0 : Nat)) (1 / 10)).1.1.length = 45000 ∧
    (validation_carve (List.replicate 50000 img0)
      (List.replicate 50000 (0 : Nat)) (1 / 10)).2.1.length = 5000 ∧
    (validation_carve (List.replicate 50000 img0)
      (List.replicate 50000 (0 : Nat)) (1 / 10)).1.1 ++
      (validation_carve (List.replicate 50000 img0)
        (List.replicate 50000 (0 : Nat)) (1 / 10)).2.1 =
      List.replicate 50000 img0 := by
  obtain ⟨hc, hcat1, hcat2⟩ :=
    C6_validation_carve_spec (List.replicate 50000 img0)
      (List.replicate 50000 (0 : Nat)) (1 / 10) (by norm_num) (by norm_num)
  have hm : (⌊(((List.replicate 50000 img0).length : Nat) : Rat) *
      (1 - 1 / 10)⌋).toNat = 45000 := by
    rw [List.length_replicate]
    norm_num
    omega
  refine ⟨by norm_num, by norm_num, ?_, ?_, hcat1⟩
  · rw [hc]
    simp only []
    rw [hm, List.length_take, List.length_replicate]
    exact min_eq_left (by norm_num)
  · rw [hc]
    simp only []
    rw [hm, List.length_drop, List.length_replicate]

lemma npIndex_mem :
    ∀ (idx : List Nat) (xs ys : List α), npIndex idx xs = some ys →
      ∀ y ∈ ys, y ∈ xs := by
  intro idx
  induction idx with
  | nil =>
    intro xs ys h y hy
    simp only [npIndex, Option.some_inj] at h
    subst h
    exact absurd hy (by simp)
  | cons i rest ih =>
    intro xs ys h y hy
    unfold npIndex at h
    cases hx : xs.get? i with
    | none => rw [hx] at h; exact absurd h (by simp)
    | some x =>
      rw [hx] at h
      cases hr : npIndex rest xs with
      | none => rw [hr] at h; exact absurd h (by simp)
      | some ys0 =>
        rw [hr] at h
        simp only [Option.some_inj] at h
        subst h
        rcases List.mem_cons.mp hy with rfl | hy'
        · exact List.get?_mem hx
        · exact ih xs ys0 hr y hy'

lemma shuffle_images_labels_mem (perm : List Nat) (images : List α)
    (labels : List β) (si : List α) (sl : List β)
    (h : shuffle_images_labels perm images labels = some (si, sl)) :
    ∀ y ∈ si, y ∈ images := by
  unfold shuffle_images_labels at h
  cases h1 : npIndex perm images with
  | none => rw [h1] at h; exact absurd h (by simp)
  | some si0 =>
    rw [h1] at h
    cases h2 : npIndex perm labels with
    | none => rw [h2] at h; exact absurd h (by simp)
    | some sl0 =>
      rw [h2] at h
      simp only [Option.some_inj, Prod.mk.injEq] at h
      obtain ⟨rfl, rfl⟩ := h
      exact npIndex_mem perm images si0 h1

lemma start_new_epoch_from_init_WF (epochPerm : List Nat)
    (rng : Nat → Nat × Nat × Nat) (images' : List Image) (labels' : List β)
    (n_classes : Nat) (flag : Bool) (normalization : Option String)
    (augmentation : Bool) (s : CifarDataSet β)
    (h : start_new_epoch epochPerm rng
      { images := images', labels := labels', n_classes := n_classes,
        shuffle_every_epoch := flag, augmentation := augmentation,
        normalization := normalization, epoch_images := [],
        epoch_labels := [], batch_counter := 0 } = some s)
    (hlen' : images'.length = labels'.length)
    (hep : epochPerm.length = images'.length)
    (hbc' : normalization = some "by_chanels" → ∀ img ∈ images', 3 ≤ img.C) :
    WF s := by
  have hf := start_new_epoch_frame epochPerm rng _ s h
  have hl := start_new_epoch_lengths_of_eq epochPerm rng _ s h hep hlen'
  have hsi : s.images = images' := hf.1
  have hsl : s.labels = labels' := hf.2.1
  have hsa : s.augmentation = augmentation := hf.2.2.2.2.1
  have hsn : s.normalization = normalization := hf.2.2.2.2.2.1
  have hei : s.epoch_images.length = images'.length := hl.1.1
  have hel : s.epoch_labels.length = labels'.length := hl.1.2
  have hl2' : augmentation = true → images'.length = 0 := hl.2
  have hau : s.augmentation = true → images'.length = 0 := fun ha =>
    hl2' (by rw [← hsa]; exact ha)
  refine ⟨?_, ?_, ?_, ?_, ?_⟩
  · rw [hsi]; exact hei
  · rw [hsl]; exact hel
  · rw [hsi, hsl]; exact hlen'
  · intro ha; rw [hsi]; exact hau ha
  · intro hn img himg
    rw [hsi] at himg
    exact hbc' (by rw [← hsn]; exact hn) img himg

/-- Every dataset produced by a successful `CifarDataSet.init` on an aligned
corpus, using the genuine numpy permutation draws, satisfies the invariant
`WF` assumed by the `next_batch` theorems. -/
lemma init_WF (initPerm epochPerm : List Nat) (rng : Nat → Nat × Nat × Nat)
    (images : List Image) (labels : List β) (n_classes : Nat)
    (shuffle normalization : Option String) (augmentation : Bool)
    (s : CifarDataSet β)
    (h : CifarDataSet.init initPerm epochPerm rng images labels n_classes
      shuffle normalization augmentation = some s)
    (hlen : images.length = labels.length)
    (hip : initPerm.Perm (List.range images.length))
    (hep : epochPerm.length = images.length)
    (hbc : normalization = some "by_chanels" → ∀ img ∈ images, 3 ≤ img.C) :
    WF s := by
  unfold CifarDataSet.init at h
  cases shuffle with
  | none =>
    simp only [] at h
    exact start_new_epoch_from_init_WF epochPerm rng images labels n_classes
      false normalization augmentation s h hlen hep hbc
  | some str =>
    simp only [] at h
    by_cases e1 : str = "once_prior_train"
    · rw [if_pos e1] at h
      cases hsh : shuffle_images_labels initPerm images labels with
      | none => rw [hsh] at h; exact absurd h (by simp)
      | some pair =>
        obtain ⟨si, sl⟩ := pair
        rw [hsh] at h
        simp only [] at h
        have hll := shuffle_images_labels_lengths initPerm images labels si sl hsh
        have hplen : initPerm.length = images.length := by simpa using hip.length_eq
        have hmem := shuffle_images_labels_mem initPerm images labels si sl hsh
        exact start_new_epoch_from_init_WF epochPerm rng si sl n_classes
          false normalization augmentation s h (by omega) (by omega)
          (fun hn img himg => hbc hn img (hmem img himg))
    · rw [if_neg e1] at h
      by_cases e2 : str = "every_epoch"
      · rw [if_pos e2] at h
        simp only [] at h
        exact start_new_epoch_from_init_WF epochPerm rng images labels n_classes
          true normalization augmentation s h hlen hep hbc
      · rw [if_neg e2] at h
        exact absurd h (by simp)

end VisionNetworks
